import Mathlib

/- Shallow embedding of the fog-of-war grid engine (src/lib/fogGrid.js) and of
   the viewport-culling pass of the fog canvas overlay layer.

   Modeling conventions:
   - JavaScript numbers are modeled as exact rationals.
   - Math.cos(lat * PI / 180) is modeled by an explicit function parameter
     cosd : Q -> Q (the cosine of an angle given in degrees), because its value
     is transcendental; every statement quantifies over it or instantiates it
     with a concrete rational approximation.
   - The string key produced by toFixed(6) interpolation, and the parseFloat
     that reads it back, are modeled by round6 (round to nearest 6-decimal
     value, ties toward plus infinity, exactly the toFixed rounding rule);
     two keys are equal iff both rounded components are equal, which matches
     string equality of the 6-decimal representations.
   - Math.floor is Int.floor, Math.ceil is Int.ceil, and Math.round x is
     Int.floor (x + 1/2). -/

namespace FogGrid

/-- Constant CELL_SIZE_METERS from fogGrid.js. -/
def CELL_SIZE_METERS : ℚ := 50

/-- Constant METERS_PER_DEG_LAT from fogGrid.js. -/
def METERS_PER_DEG_LAT : ℚ := 111320

/-- Constant REVEAL_RADIUS from fogGrid.js. -/
def REVEAL_RADIUS : ℤ := 2

/-- Constant CELL_SIZE_LAT = CELL_SIZE_METERS / METERS_PER_DEG_LAT from fogGrid.js. -/
def CELL_SIZE_LAT : ℚ := CELL_SIZE_METERS / METERS_PER_DEG_LAT

/-- Function cellSizeLng from fogGrid.js: CELL_SIZE_METERS divided by
    (METERS_PER_DEG_LAT * Math.cos(lat * PI / 180)); cosd models the cosine. -/
def cellSizeLng (cosd : ℚ → ℚ) (lat : ℚ) : ℚ :=
  CELL_SIZE_METERS / (METERS_PER_DEG_LAT * cosd lat)

/-- Rounding performed by Number.prototype.toFixed(6): nearest multiple of
    1/1000000, ties toward plus infinity. -/
def round6 (x : ℚ) : ℚ := (Int.floor (x * 1000000 + 1/2) : ℚ) / 1000000

/-- A cell key: the two numeric components of the string key
    cellLat.toFixed(6) ++ underscore ++ cellLng.toFixed(6). -/
structure CellKey where
  lat : ℚ
  lng : ℚ
deriving DecidableEq

/-- Function getCellKey from fogGrid.js: floor-quantize latitude by
    CELL_SIZE_LAT and longitude by cellSizeLng(lat), round both to 6
    decimals. -/
def getCellKey (cosd : ℚ → ℚ) (lat lng : ℚ) : CellKey :=
  let cellLat := (Int.floor (lat / CELL_SIZE_LAT) : ℚ) * CELL_SIZE_LAT
  let cLng := cellSizeLng cosd lat
  let cellLng := (Int.floor (lng / cLng) : ℚ) * cLng
  ⟨round6 cellLat, round6 cellLng⟩

/-- The rectangle returned by getCellBounds. -/
structure Bounds where
  south : ℚ
  north : ℚ
  west : ℚ
  east : ℚ
deriving DecidableEq

/-- Function getCellBounds from fogGrid.js: parse the two components back
    (parseFloat of a 6-decimal literal is exact) and add the latitude step and
    the longitude step computed at the parsed latitude. -/
def getCellBounds (cosd : ℚ → ℚ) (key : CellKey) : Bounds :=
  let cLng := cellSizeLng cosd key.lat
  ⟨key.lat, key.lat + CELL_SIZE_LAT, key.lng, key.lng + cLng⟩

/-- The latitude step is positive. -/
lemma CELL_SIZE_LAT_pos : 0 < CELL_SIZE_LAT := by
  norm_num [CELL_SIZE_LAT, CELL_SIZE_METERS, METERS_PER_DEG_LAT]

/-- The longitude step is positive wherever the cosine is positive. -/
lemma cellSizeLng_pos (cosd : ℚ → ℚ) (lat : ℚ) (hc : 0 < cosd lat) :
    0 < cellSizeLng cosd lat := by
  unfold cellSizeLng CELL_SIZE_METERS METERS_PER_DEG_LAT
  positivity

/-- round6 moves a value up by at most half of the last decimal place. -/
lemma round6_le (x : ℚ) : round6 x ≤ x + 1/2000000 := by
  unfold round6
  rw [div_le_iff₀ (by norm_num : (0:ℚ) < 1000000)]
  have h := Int.floor_le (x * 1000000 + 1/2)
  calc (Int.floor (x * 1000000 + 1/2) : ℚ) ≤ x * 1000000 + 1/2 := h
    _ = (x + 1/2000000) * 1000000 := by ring

/-- round6 moves a value down by less than half of the last decimal place. -/
lemma lt_round6 (x : ℚ) : x - 1/2000000 < round6 x := by
  unfold round6
  rw [lt_div_iff₀ (by norm_num : (0:ℚ) < 1000000)]
  have h := Int.sub_one_lt_floor (x * 1000000 + 1/2)
  have : (x - 1/2000000) * 1000000 = x * 1000000 + 1/2 - 1 := by ring
  linarith

/-- Floor quantization stays at or below the input. -/
lemma floor_mul_le (x s : ℚ) (hs : 0 < s) : (Int.floor (x / s) : ℚ) * s ≤ x := by
  have h := Int.floor_le (x / s)
  calc (Int.floor (x / s) : ℚ) * s ≤ (x / s) * s :=
        mul_le_mul_of_nonneg_right h hs.le
    _ = x := div_mul_cancel₀ x hs.ne'

/-- The input lies below the next quantization boundary. -/
lemma lt_floor_mul_add (x s : ℚ) (hs : 0 < s) :
    x < (Int.floor (x / s) : ℚ) * s + s := by
  have h := Int.lt_floor_add_one (x / s)
  have h2 := mul_lt_mul_of_pos_right h hs
  have h3 : (x / s) * s = x := div_mul_cancel₀ x hs.ne'
  nlinarith

/-- C1: the round-trip containment fails as stated: at latitude 0.0017967
    (longitude 0, a constant-one cosine) the 6-decimal rounding inside
    getCellKey rounds the quantized southwest corner up past the query
    latitude, so the returned rectangle does not contain the point, and the
    south bound is not the exact quantized value either. -/
theorem roundtrip_counterexample :
    ¬ ((getCellBounds (fun _ => 1) (getCellKey (fun _ => 1) (17967/10000000) 0)).south
        ≤ 17967/10000000) ∧
    (getCellBounds (fun _ => 1) (getCellKey (fun _ => 1) (17967/10000000) 0)).south
      ≠ (Int.floor ((17967/10000000) / CELL_SIZE_LAT) : ℚ) * CELL_SIZE_LAT :=
  of_decide_eq_true (by with_unfolding_all rfl)

/-- C1 (amended): getCellBounds recovers exactly the 6-decimal rounded
    quantized corner that getCellKey stored, and the rectangle contains the
    original point up to the half-last-decimal rounding slack 1/2000000 on
    each edge; for the east edge this additionally needs the longitude step at
    the stored (quantized, rounded) latitude to be at least the one at the
    query latitude. -/
theorem roundtrip_within_rounding (cosd : ℚ → ℚ) (lat lng : ℚ)
    (hc : 0 < cosd lat)
    (hstep : cellSizeLng cosd lat ≤ cellSizeLng cosd (getCellKey cosd lat lng).lat) :
    (getCellBounds cosd (getCellKey cosd lat lng)).south ≤ lat + 1/2000000 ∧
    lat < (getCellBounds cosd (getCellKey cosd lat lng)).north + 1/2000000 ∧
    (getCellBounds cosd (getCellKey cosd lat lng)).west ≤ lng + 1/2000000 ∧
    lng < (getCellBounds cosd (getCellKey cosd lat lng)).east + 1/2000000 ∧
    (getCellBounds cosd (getCellKey cosd lat lng)).south
      = round6 ((Int.floor (lat / CELL_SIZE_LAT) : ℚ) * CELL_SIZE_LAT) ∧
    (getCellBounds cosd (getCellKey cosd lat lng)).west
      = round6 ((Int.floor (lng / cellSizeLng cosd lat) : ℚ) * cellSizeLng cosd lat) := by
  have hS := CELL_SIZE_LAT_pos
  have hL := cellSizeLng_pos cosd lat hc
  simp only [getCellKey, getCellBounds]
  refine ⟨?_, ?_, ?_, ?_, trivial, trivial⟩
  · have h1 := round6_le ((Int.floor (lat / CELL_SIZE_LAT) : ℚ) * CELL_SIZE_LAT)
    have h2 := floor_mul_le lat CELL_SIZE_LAT hS
    linarith
  · have h1 := lt_round6 ((Int.floor (lat / CELL_SIZE_LAT) : ℚ) * CELL_SIZE_LAT)
    have h2 := lt_floor_mul_add lat CELL_SIZE_LAT hS
    linarith
  · have h1 := round6_le ((Int.floor (lng / cellSizeLng cosd lat) : ℚ) * cellSizeLng cosd lat)
    have h2 := floor_mul_le lng (cellSizeLng cosd lat) hL
    linarith
  · have h1 := lt_round6 ((Int.floor (lng / cellSizeLng cosd lat) : ℚ) * cellSizeLng cosd lat)
    have h2 := lt_floor_mul_add lng (cellSizeLng cosd lat) hL
    simp only [getCellKey] at hstep
    linarith

/-- C1 witness: the amended round-trip theorem applied at the concrete input
    lat = 0, lng = 0 with a constant-one cosine. -/
theorem roundtrip_within_rounding_witness :
    (0:ℚ) < (fun _ => (1:ℚ)) 0 ∧
    ((getCellBounds (fun _ => (1:ℚ)) (getCellKey (fun _ => (1:ℚ)) 0 0)).south ≤ 0 + 1/2000000 ∧
     (0:ℚ) < (getCellBounds (fun _ => (1:ℚ)) (getCellKey (fun _ => (1:ℚ)) 0 0)).north + 1/2000000 ∧
     (getCellBounds (fun _ => (1:ℚ)) (getCellKey (fun _ => (1:ℚ)) 0 0)).west ≤ 0 + 1/2000000 ∧
     (0:ℚ) < (getCellBounds (fun _ => (1:ℚ)) (getCellKey (fun _ => (1:ℚ)) 0 0)).east + 1/2000000 ∧
     (getCellBounds (fun _ => (1:ℚ)) (getCellKey (fun _ => (1:ℚ)) 0 0)).south
       = round6 ((Int.floor ((0:ℚ) / CELL_SIZE_LAT) : ℚ) * CELL_SIZE_LAT) ∧
     (getCellBounds (fun _ => (1:ℚ)) (getCellKey (fun _ => (1:ℚ)) 0 0)).west
       = round6 ((Int.floor ((0:ℚ) / cellSizeLng (fun _ => (1:ℚ)) 0) : ℚ) * cellSizeLng (fun _ => (1:ℚ)) 0)) :=
  ⟨by norm_num, roundtrip_within_rounding (fun _ => 1) 0 0 (by norm_num) (le_refl _)⟩

/-- The loop range negative REVEAL_RADIUS .. REVEAL_RADIUS of the two nested
    for loops in getRevealCells (REVEAL_RADIUS = 2). -/
def revealRange : List ℤ := [-2, -1, 0, 1, 2]

/-- Function getRevealCells from fogGrid.js: the outer loop runs over dy, the
    inner loop over dx, and a key is pushed when dx * dx + dy * dy is at most
    REVEAL_RADIUS * REVEAL_RADIUS + 1. -/
def getRevealCells (cosd : ℚ → ℚ) (lat lng : ℚ) : List CellKey :=
  let cLng := cellSizeLng cosd lat
  revealRange.flatMap (fun dy =>
    revealRange.filterMap (fun dx =>
      if dx * dx + dy * dy ≤ REVEAL_RADIUS * REVEAL_RADIUS + 1 then
        some (getCellKey cosd (lat + (dy : ℚ) * CELL_SIZE_LAT) (lng + (dx : ℚ) * cLng))
      else none))

/-- The 21 integer offsets (dx, dy) passing the circular inclusion test, in
    the push order of the two nested loops. -/
def revealOffsets : List (ℤ × ℤ) :=
  [(-1, -2), (0, -2), (1, -2),
   (-2, -1), (-1, -1), (0, -1), (1, -1), (2, -1),
   (-2, 0), (-1, 0), (0, 0), (1, 0), (2, 0),
   (-2, 1), (-1, 1), (0, 1), (1, 1), (2, 1),
   (-1, 2), (0, 2), (1, 2)]

/-- getRevealCells is the image of the 21 passing offsets. -/
lemma getRevealCells_eq_map (cosd : ℚ → ℚ) (lat lng : ℚ) :
    getRevealCells cosd lat lng
      = revealOffsets.map (fun d =>
          getCellKey cosd (lat + (d.2 : ℚ) * CELL_SIZE_LAT)
            (lng + (d.1 : ℚ) * cellSizeLng cosd lat)) := by
  rfl

/-- Every listed offset passes the circular test. -/
lemma revealOffsets_sound :
    ∀ d ∈ revealOffsets, d.1 * d.1 + d.2 * d.2 ≤ REVEAL_RADIUS * REVEAL_RADIUS + 1 := by
  decide

/-- Every integer offset passing the circular test is listed. -/
lemma revealOffsets_complete (dx dy : ℤ)
    (h : dx * dx + dy * dy ≤ REVEAL_RADIUS * REVEAL_RADIUS + 1) :
    (dx, dy) ∈ revealOffsets := by
  unfold REVEAL_RADIUS at h
  have hx1 : -2 ≤ dx := by nlinarith
  have hx2 : dx ≤ 2 := by nlinarith
  have hy1 : -2 ≤ dy := by nlinarith
  have hy2 : dy ≤ 2 := by nlinarith
  interval_cases dx <;> interval_cases dy <;> revert h <;> decide

/-- State of one reveal call: the changed flag, the resulting explored set,
    and the persistence writes performed (saveExploredCells arguments). -/
structure RevealResult where
  changed : Bool
  set : Finset CellKey
  writes : List (Finset CellKey)

/-- Body of the for loop of revealAt: skip a key already present, otherwise
    add it and raise the changed flag. -/
def revealStep (acc : Bool × Finset CellKey) (key : CellKey) : Bool × Finset CellKey :=
  if key ∈ acc.2 then acc else (true, insert key acc.2)

/-- Loop of revealAt over an arbitrary list of brush keys: fold the loop body,
    then record one persistence write exactly when the flag ended up true. -/
def revealAtList (newCells : List CellKey) (exploredCells : Finset CellKey) : RevealResult :=
  let r := newCells.foldl revealStep (false, exploredCells)
  ⟨r.1, r.2, if r.1 then [r.2] else []⟩

/-- Function revealAt from fogGrid.js: run the loop over getRevealCells;
    saveExploredCells is called exactly when the flag ended up true. -/
def revealAt (cosd : ℚ → ℚ) (lat lng : ℚ) (exploredCells : Finset CellKey) : RevealResult :=
  revealAtList (getRevealCells cosd lat lng) exploredCells

/-- Unfolding lemma for revealAt. -/
lemma revealAt_eq_list (cosd : ℚ → ℚ) (lat lng : ℚ) (s : Finset CellKey) :
    revealAt cosd lat lng s = revealAtList (getRevealCells cosd lat lng) s := rfl

/-- Projection of the changed flag out of the loop. -/
lemma revealAtList_changed (ks : List CellKey) (s : Finset CellKey) :
    (revealAtList ks s).changed = (ks.foldl revealStep (false, s)).1 := rfl

/-- Projection of the resulting set out of the loop. -/
lemma revealAtList_set (ks : List CellKey) (s : Finset CellKey) :
    (revealAtList ks s).set = (ks.foldl revealStep (false, s)).2 := rfl

/-- Projection of the persistence writes out of the loop. -/
lemma revealAtList_writes (ks : List CellKey) (s : Finset CellKey) :
    (revealAtList ks s).writes
      = if (ks.foldl revealStep (false, s)).1 then
          [(ks.foldl revealStep (false, s)).2]
        else [] := rfl

/-- The loop only ever adds cells: the initial set survives the fold. -/
lemma revealFold_subset (ks : List CellKey) :
    ∀ b s, s ⊆ (ks.foldl revealStep (b, s)).2 := by
  induction ks with
  | nil => intro b s; simp
  | cons k ks ih =>
    intro b s
    simp only [List.foldl_cons]
    by_cases h : k ∈ s
    · simpa [revealStep, h] using ih b s
    · simp only [revealStep, h, if_neg, if_false]
      exact (Finset.subset_insert k s).trans (ih true (insert k s))

/-- Every key of the list ends up in the fold result. -/
lemma revealFold_mem (ks : List CellKey) :
    ∀ b s k, k ∈ ks → k ∈ (ks.foldl revealStep (b, s)).2 := by
  induction ks with
  | nil => intro b s k h; simp at h
  | cons k' ks ih =>
    intro b s k h
    rcases List.mem_cons.mp h with h | h
    · subst h
      simp only [List.foldl_cons]
      have hk : k ∈ (revealStep (b, s) k).2 := by
        by_cases hm : k ∈ s
        · simp [revealStep, hm]
        · simp [revealStep, hm]
      exact revealFold_subset ks (revealStep (b, s) k).1 (revealStep (b, s) k).2 hk
    · simp only [List.foldl_cons]
      exact ih _ _ k h

/-- If every key of the list is already present the fold is the identity. -/
lemma revealFold_nochange (ks : List CellKey) :
    ∀ b s, (∀ k ∈ ks, k ∈ s) → ks.foldl revealStep (b, s) = (b, s) := by
  induction ks with
  | nil => intro b s _; simp
  | cons k ks ih =>
    intro b s h
    have hk : k ∈ s := h k (List.mem_cons_self k ks)
    simp only [List.foldl_cons, revealStep, hk, if_pos]
    exact ih b s fun k' hk' => h k' (List.mem_cons_of_mem k hk')

/-- A raised changed flag survives the rest of the fold. -/
lemma revealFold_true (ks : List CellKey) :
    ∀ s, (ks.foldl revealStep (true, s)).1 = true := by
  induction ks with
  | nil => intro s; simp
  | cons k ks ih =>
    intro s
    by_cases h : k ∈ s <;> simp [revealStep, h, ih]

/-- A clean flag at the end means the set never moved. -/
lemma revealFold_false_eq (ks : List CellKey) :
    ∀ s, (ks.foldl revealStep (false, s)).1 = false →
      (ks.foldl revealStep (false, s)).2 = s := by
  induction ks with
  | nil => intro s _; simp
  | cons k ks ih =>
    intro s h
    by_cases hk : k ∈ s
    · simp only [List.foldl_cons, revealStep, hk, if_pos] at h ⊢
      exact ih s h
    · exfalso
      simp only [List.foldl_cons, revealStep, hk, if_neg, if_false] at h
      rw [revealFold_true ks (insert k s)] at h
      exact absurd h (by simp)

/-- A raised flag at the end means the set strictly grew. -/
lemma revealFold_true_ne (ks : List CellKey) :
    ∀ s, (ks.foldl revealStep (false, s)).1 = true →
      (ks.foldl revealStep (false, s)).2 ≠ s := by
  induction ks with
  | nil => intro s h; simp at h
  | cons k ks ih =>
    intro s h
    by_cases hk : k ∈ s
    · simp only [List.foldl_cons, revealStep, hk, if_pos] at h ⊢
      exact ih s h
    · simp only [List.foldl_cons, revealStep, hk, if_neg, if_false] at h ⊢
      intro heq
      have hsub := revealFold_subset ks true (insert k s)
      have : k ∈ (ks.foldl revealStep (true, insert k s)).2 :=
        hsub (Finset.mem_insert_self k s)
      rw [heq] at this
      exact hk this

/-- The key of a position offset by a listed (dx, dy) is in the brush. -/
lemma mem_getRevealCells_of_offset (cosd : ℚ → ℚ) (lat lng : ℚ) (dx dy : ℤ)
    (hd : (dx, dy) ∈ revealOffsets) :
    getCellKey cosd (lat + (dy : ℚ) * CELL_SIZE_LAT)
      (lng + (dx : ℚ) * cellSizeLng cosd lat) ∈ getRevealCells cosd lat lng := by
  rw [getRevealCells_eq_map]
  have h := List.mem_map_of_mem
    (fun d => getCellKey cosd (lat + (d.2 : ℚ) * CELL_SIZE_LAT)
      (lng + (d.1 : ℚ) * cellSizeLng cosd lat)) hd
  simpa using h

/-- C3: getRevealCells returns one key per integer offset (dx, dy) with
    dx * dx + dy * dy at most REVEAL_RADIUS ^ 2 + 1 = 5: its length is always
    21, a key is in the list exactly when it is the key of the position offset
    by such a (dx, dy) in cell steps, and 21 is the number of integer pairs
    passing the test. -/
theorem revealCells_brush (cosd : ℚ → ℚ) (lat lng : ℚ) (_hc : 0 < cosd lat) :
    (getRevealCells cosd lat lng).length = 21 ∧
    (∀ k, k ∈ getRevealCells cosd lat lng ↔
      ∃ dx dy : ℤ, dx * dx + dy * dy ≤ REVEAL_RADIUS * REVEAL_RADIUS + 1 ∧
        k = getCellKey cosd (lat + (dy : ℚ) * CELL_SIZE_LAT)
              (lng + (dx : ℚ) * cellSizeLng cosd lat)) ∧
    (((Finset.Icc (-2 : ℤ) 2) ×ˢ (Finset.Icc (-2 : ℤ) 2)).filter
        (fun d => d.1 * d.1 + d.2 * d.2 ≤ REVEAL_RADIUS * REVEAL_RADIUS + 1)).card = 21 := by
  refine ⟨?_, ?_, by decide⟩
  · rw [getRevealCells_eq_map, List.length_map]
    rfl
  · intro k
    rw [getRevealCells_eq_map]
    constructor
    · intro h
      obtain ⟨d, hd, hk⟩ := List.mem_map.mp h
      exact ⟨d.1, d.2, revealOffsets_sound d hd, hk.symm⟩
    · rintro ⟨dx, dy, hcond, rfl⟩
      exact List.mem_map.mpr ⟨(dx, dy), revealOffsets_complete dx dy hcond, rfl⟩

/-- C3 witness: the brush shape theorem at the concrete position (0, 0) with a
    constant-one cosine. -/
theorem revealCells_brush_witness :
    (0:ℚ) < (fun _ => (1:ℚ)) 0 ∧
    ((getRevealCells (fun _ => (1:ℚ)) 0 0).length = 21 ∧
     (∀ k, k ∈ getRevealCells (fun _ => (1:ℚ)) 0 0 ↔
       ∃ dx dy : ℤ, dx * dx + dy * dy ≤ REVEAL_RADIUS * REVEAL_RADIUS + 1 ∧
         k = getCellKey (fun _ => (1:ℚ)) (0 + (dy : ℚ) * CELL_SIZE_LAT)
               (0 + (dx : ℚ) * cellSizeLng (fun _ => (1:ℚ)) 0)) ∧
     (((Finset.Icc (-2 : ℤ) 2) ×ˢ (Finset.Icc (-2 : ℤ) 2)).filter
         (fun d => d.1 * d.1 + d.2 * d.2 ≤ REVEAL_RADIUS * REVEAL_RADIUS + 1)).card = 21) :=
  ⟨by norm_num, revealCells_brush (fun _ => 1) 0 0 (by norm_num)⟩

/-- C2: revealing a second time from the same position is a no-op: the changed
    flag is false, the set is unchanged and no persistence write happens; and
    in general one reveal call writes to storage exactly when it returned
    changed = true, which happens exactly when the set strictly grew. -/
theorem revealAt_idempotent (cosd : ℚ → ℚ) (lat lng : ℚ) (s : Finset CellKey) :
    (revealAt cosd lat lng (revealAt cosd lat lng s).set).changed = false ∧
    (revealAt cosd lat lng (revealAt cosd lat lng s).set).set = (revealAt cosd lat lng s).set ∧
    (revealAt cosd lat lng (revealAt cosd lat lng s).set).writes = [] ∧
    ((revealAt cosd lat lng s).writes ≠ [] ↔ (revealAt cosd lat lng s).changed = true) ∧
    ((revealAt cosd lat lng s).changed = true ↔ (revealAt cosd lat lng s).set ≠ s) := by
  simp only [revealAt_eq_list]
  set ks := getRevealCells cosd lat lng with hks
  clear_value ks
  simp only [revealAtList_changed, revealAtList_set, revealAtList_writes]
  set r1 := ks.foldl revealStep (false, s) with hr1
  have hmem : ∀ k ∈ ks, k ∈ r1.2 := fun k hk => revealFold_mem ks false s k hk
  have h2 : ks.foldl revealStep (false, r1.2) = (false, r1.2) :=
    revealFold_nochange ks false r1.2 hmem
  refine ⟨by rw [h2], by rw [h2], by rw [h2]; simp, ?_, ?_⟩
  · cases hb : r1.1 <;> simp [hb]
  · constructor
    · intro h
      exact revealFold_true_ne ks s h
    · intro hne
      cases hb : r1.1 with
      | true => rfl
      | false => exact absurd (revealFold_false_eq ks s hb) hne

/-- C5: a reveal call never removes a cell: the explored set before the call
    is contained in the explored set after it, and its size is
    non-decreasing. -/
theorem revealAt_monotonic (cosd : ℚ → ℚ) (lat lng : ℚ) (s : Finset CellKey) :
    s ⊆ (revealAt cosd lat lng s).set ∧ s.card ≤ (revealAt cosd lat lng s).set.card := by
  have hsub : s ⊆ (revealAt cosd lat lng s).set := by
    rw [revealAt_eq_list, revealAtList_set]
    exact revealFold_subset (getRevealCells cosd lat lng) false s
  exact ⟨hsub, Finset.card_le_card hsub⟩

/-- The key of the position itself is in the brush. -/
lemma focal_in_brush (cosd : ℚ → ℚ) (lat lng : ℚ) :
    getCellKey cosd lat lng ∈ getRevealCells cosd lat lng := by
  have h0 : ((0:ℤ), (0:ℤ)) ∈ revealOffsets := by decide
  have h := mem_getRevealCells_of_offset cosd lat lng 0 0 h0
  simp only [Int.cast_zero, zero_mul, add_zero] at h
  exact h

/-- C10: the focal cell (offset dx = dy = 0) is always part of the reveal
    brush, so after revealAt the explored set contains the key of the
    position itself. -/
theorem focal_cell_revealed (cosd : ℚ → ℚ) (lat lng : ℚ) (_hc : 0 < cosd lat)
    (s : Finset CellKey) :
    getCellKey cosd lat lng ∈ getRevealCells cosd lat lng ∧
    getCellKey cosd lat lng ∈ (revealAt cosd lat lng s).set := by
  have h1 := focal_in_brush cosd lat lng
  refine ⟨h1, ?_⟩
  rw [revealAt_eq_list, revealAtList_set]
  revert h1
  generalize getCellKey cosd lat lng = key
  generalize getRevealCells cosd lat lng = ks
  intro h1
  exact revealFold_mem ks false s key h1

/-- C10 witness: the focal cell theorem at position (0, 0), a constant-one
    cosine and the empty explored set. -/
theorem focal_cell_revealed_witness :
    (0:ℚ) < (fun _ => (1:ℚ)) 0 ∧
    (getCellKey (fun _ => (1:ℚ)) 0 0 ∈ getRevealCells (fun _ => (1:ℚ)) 0 0 ∧
     getCellKey (fun _ => (1:ℚ)) 0 0 ∈ (revealAt (fun _ => (1:ℚ)) 0 0 ∅).set) :=
  ⟨by norm_num, focal_cell_revealed (fun _ => 1) 0 0 (by norm_num) ∅⟩

/-- latRange inside getCoverage: radiusMeters / METERS_PER_DEG_LAT. -/
def latRangeOf (radiusMeters : ℚ) : ℚ := radiusMeters / METERS_PER_DEG_LAT

/-- lngRange inside getCoverage: radiusMeters divided by
    (METERS_PER_DEG_LAT * Math.cos(centerLat * PI / 180)). -/
def lngRangeOf (cosd : ℚ → ℚ) (centerLat radiusMeters : ℚ) : ℚ :=
  radiusMeters / (METERS_PER_DEG_LAT * cosd centerLat)

/-- totalCells inside getCoverage: latSteps * lngSteps, each a Math.ceil of
    span over step. -/
def totalCells (cosd : ℚ → ℚ) (centerLat radiusMeters : ℚ) : ℤ :=
  Int.ceil ((latRangeOf radiusMeters * 2) / CELL_SIZE_LAT)
    * Int.ceil ((lngRangeOf cosd centerLat radiusMeters * 2) / cellSizeLng cosd centerLat)

/-- exploredInArea inside getCoverage: count the stored keys whose parsed
    components fall in the bounding box. -/
def exploredInArea (cosd : ℚ → ℚ) (exploredCells : Finset CellKey)
    (centerLat centerLng radiusMeters : ℚ) : ℕ :=
  (exploredCells.filter (fun k =>
    centerLat - latRangeOf radiusMeters ≤ k.lat ∧
    k.lat ≤ centerLat + latRangeOf radiusMeters ∧
    centerLng - lngRangeOf cosd centerLat radiusMeters ≤ k.lng ∧
    k.lng ≤ centerLng + lngRangeOf cosd centerLat radiusMeters)).card

/-- Math.round: round half toward plus infinity. -/
def jsRound (x : ℚ) : ℤ := Int.floor (x + 1/2)

/-- Function getCoverage from fogGrid.js: return 0 when the estimated total is
    0, else min(100, Math.round(exploredInArea / totalCells * 100)). -/
def getCoverage (cosd : ℚ → ℚ) (exploredCells : Finset CellKey)
    (centerLat centerLng radiusMeters : ℚ) : ℤ :=
  if totalCells cosd centerLat radiusMeters = 0 then 0
  else
    min 100 (jsRound
      (((exploredInArea cosd exploredCells centerLat centerLng radiusMeters : ℚ)
        / (totalCells cosd centerLat radiusMeters : ℚ)) * 100))

/-- getCoverage on a zero estimated total. -/
lemma getCoverage_zero (cosd : ℚ → ℚ) (expl : Finset CellKey)
    (centerLat centerLng r : ℚ) (h : totalCells cosd centerLat r = 0) :
    getCoverage cosd expl centerLat centerLng r = 0 := by
  unfold getCoverage
  rw [if_pos h]

/-- getCoverage on a nonzero estimated total. -/
lemma getCoverage_ne_zero (cosd : ℚ → ℚ) (expl : Finset CellKey)
    (centerLat centerLng r : ℚ) (h : ¬ totalCells cosd centerLat r = 0) :
    getCoverage cosd expl centerLat centerLng r
      = min 100 (jsRound (((exploredInArea cosd expl centerLat centerLng r : ℚ)
          / (totalCells cosd centerLat r : ℚ)) * 100)) := by
  unfold getCoverage
  rw [if_neg h]

/-- The estimated total is a product of two nonnegative ceilings. -/
lemma totalCells_nonneg (cosd : ℚ → ℚ) (centerLat r : ℚ)
    (hc : 0 < cosd centerLat) (hr : 0 ≤ r) : 0 ≤ totalCells cosd centerLat r := by
  unfold totalCells
  have hS := CELL_SIZE_LAT_pos
  have hL := cellSizeLng_pos cosd centerLat hc
  have hlr : (0:ℚ) ≤ latRangeOf r := by
    unfold latRangeOf METERS_PER_DEG_LAT
    exact div_nonneg hr (by norm_num)
  have hgr : (0:ℚ) ≤ lngRangeOf cosd centerLat r := by
    unfold lngRangeOf METERS_PER_DEG_LAT
    exact div_nonneg hr (by positivity)
  have hA : (0:ℚ) ≤ (latRangeOf r * 2) / CELL_SIZE_LAT :=
    div_nonneg (by linarith) hS.le
  have hB : (0:ℚ) ≤ (lngRangeOf cosd centerLat r * 2) / cellSizeLng cosd centerLat :=
    div_nonneg (by linarith) hL.le
  exact mul_nonneg (Int.ceil_nonneg hA) (Int.ceil_nonneg hB)

/-- C4 (amended): getCoverage always returns an integer in [0, 100]; it is 0
    on an empty explored set and 0 when the estimated total is 0; and it is
    100 exactly when the estimated total is nonzero and the count of stored
    keys parsed into the bounding box reaches 99.5 percent of that total
    (Math.round reaches 100 from a ratio of 0.995 up) - not only when every
    estimated cell is present. -/
theorem coverage_bounds (cosd : ℚ → ℚ) (expl : Finset CellKey)
    (centerLat centerLng r : ℚ) (hc : 0 < cosd centerLat) (hr : 0 ≤ r) :
    (0 ≤ getCoverage cosd expl centerLat centerLng r ∧
      getCoverage cosd expl centerLat centerLng r ≤ 100) ∧
    (expl = ∅ → getCoverage cosd expl centerLat centerLng r = 0) ∧
    (totalCells cosd centerLat r = 0 → getCoverage cosd expl centerLat centerLng r = 0) ∧
    (getCoverage cosd expl centerLat centerLng r = 100 ↔
      totalCells cosd centerLat r ≠ 0 ∧
      199 * totalCells cosd centerLat r
        ≤ 200 * (exploredInArea cosd expl centerLat centerLng r : ℤ)) := by
  have ht := totalCells_nonneg cosd centerLat r hc hr
  refine ⟨?_, ?_, getCoverage_zero cosd expl centerLat centerLng r, ?_⟩
  · by_cases ht0 : totalCells cosd centerLat r = 0
    · rw [getCoverage_zero cosd expl centerLat centerLng r ht0]
      norm_num
    · rw [getCoverage_ne_zero cosd expl centerLat centerLng r ht0]
      have ht1 : (1:ℤ) ≤ totalCells cosd centerLat r := by omega
      have htQ : (0:ℚ) < (totalCells cosd centerLat r : ℚ) := by
        exact_mod_cast lt_of_lt_of_le zero_lt_one ht1
      have hX : (0:ℚ) ≤ ((exploredInArea cosd expl centerLat centerLng r : ℚ)
          / (totalCells cosd centerLat r : ℚ)) * 100 :=
        mul_nonneg (div_nonneg (Nat.cast_nonneg _) htQ.le) (by norm_num)
      constructor
      · refine le_min (by norm_num) ?_
        unfold jsRound
        exact Int.le_floor.mpr (by push_cast; linarith)
      · exact min_le_left _ _
  · intro he
    subst he
    have he0 : exploredInArea cosd (∅ : Finset CellKey) centerLat centerLng r = 0 := by
      simp [exploredInArea]
    by_cases ht0 : totalCells cosd centerLat r = 0
    · exact getCoverage_zero cosd ∅ centerLat centerLng r ht0
    · rw [getCoverage_ne_zero cosd ∅ centerLat centerLng r ht0, he0]
      have hj : jsRound (((0:ℕ) : ℚ) / (totalCells cosd centerLat r : ℚ) * 100) = 0 := by
        unfold jsRound
        norm_num [Int.floor_eq_iff]
      rw [hj]
      exact min_eq_right (by norm_num)
  · constructor
    · intro h100
      by_cases ht0 : totalCells cosd centerLat r = 0
      · rw [getCoverage_zero cosd expl centerLat centerLng r ht0] at h100
        exact absurd h100 (by norm_num)
      · refine ⟨ht0, ?_⟩
        rw [getCoverage_ne_zero cosd expl centerLat centerLng r ht0] at h100
        have h1 : (100:ℤ) ≤ jsRound (((exploredInArea cosd expl centerLat centerLng r : ℚ)
            / (totalCells cosd centerLat r : ℚ)) * 100) := min_eq_left_iff.mp h100
        unfold jsRound at h1
        have h2 : (100:ℚ) ≤ (exploredInArea cosd expl centerLat centerLng r : ℚ)
            / (totalCells cosd centerLat r : ℚ) * 100 + 1/2 := by
          exact_mod_cast Int.le_floor.mp h1
        have ht1 : (1:ℤ) ≤ totalCells cosd centerLat r := by omega
        have htQ : (0:ℚ) < (totalCells cosd centerLat r : ℚ) := by
          exact_mod_cast lt_of_lt_of_le zero_lt_one ht1
        have h4 : (199:ℚ)/2 ≤ (exploredInArea cosd expl centerLat centerLng r : ℚ) * 100
            / (totalCells cosd centerLat r : ℚ) := by
          rw [div_mul_eq_mul_div] at h2
          linarith
        have h5 := (le_div_iff₀ htQ).mp h4
        have h6 : 199 * (totalCells cosd centerLat r : ℚ)
            ≤ 200 * (exploredInArea cosd expl centerLat centerLng r : ℚ) := by linarith
        exact_mod_cast h6
    · rintro ⟨ht0, hge⟩
      rw [getCoverage_ne_zero cosd expl centerLat centerLng r ht0]
      have ht1 : (1:ℤ) ≤ totalCells cosd centerLat r := by omega
      have htQ : (0:ℚ) < (totalCells cosd centerLat r : ℚ) := by
        exact_mod_cast lt_of_lt_of_le zero_lt_one ht1
      have hgeQ : 199 * (totalCells cosd centerLat r : ℚ)
          ≤ 200 * (exploredInArea cosd expl centerLat centerLng r : ℚ) := by
        exact_mod_cast hge
      have h4 : (199:ℚ)/2 * (totalCells cosd centerLat r : ℚ)
          ≤ (exploredInArea cosd expl centerLat centerLng r : ℚ) * 100 := by linarith
      have h2 : (100:ℚ) ≤ (exploredInArea cosd expl centerLat centerLng r : ℚ)
          / (totalCells cosd centerLat r : ℚ) * 100 + 1/2 := by
        rw [div_mul_eq_mul_div]
        have := (le_div_iff₀ htQ).mpr h4
        linarith
      have h1 : (100:ℤ) ≤ jsRound (((exploredInArea cosd expl centerLat centerLng r : ℚ)
          / (totalCells cosd centerLat r : ℚ)) * 100) := by
        unfold jsRound
        exact Int.le_floor.mpr (by push_cast; linarith)
      exact min_eq_left h1

/-- C4 witness: the coverage bounds theorem at a constant-one cosine, empty
    explored set, center (0, 0) and radius 1000. -/
theorem coverage_bounds_witness :
    (0:ℚ) < (fun _ => (1:ℚ)) 0 ∧ (0:ℚ) ≤ 1000 ∧
    ((0 ≤ getCoverage (fun _ => (1:ℚ)) ∅ 0 0 1000 ∧
      getCoverage (fun _ => (1:ℚ)) ∅ 0 0 1000 ≤ 100) ∧
    ((∅ : Finset CellKey) = ∅ → getCoverage (fun _ => (1:ℚ)) ∅ 0 0 1000 = 0) ∧
    (totalCells (fun _ => (1:ℚ)) 0 1000 = 0 → getCoverage (fun _ => (1:ℚ)) ∅ 0 0 1000 = 0) ∧
    (getCoverage (fun _ => (1:ℚ)) ∅ 0 0 1000 = 100 ↔
      totalCells (fun _ => (1:ℚ)) 0 1000 ≠ 0 ∧
      199 * totalCells (fun _ => (1:ℚ)) 0 1000
        ≤ 200 * (exploredInArea (fun _ => (1:ℚ)) ∅ 0 0 1000 : ℤ))) :=
  ⟨by norm_num, by norm_num,
    coverage_bounds (fun _ => 1) ∅ 0 0 1000 (by norm_num) (by norm_num)⟩

/-- C4: the claim that 100 is returned only when every estimated cell of the
    region is explored fails: with center (0, 0), radius 25 and a constant-one
    cosine the estimated total is one cell, and an explored set holding one
    stray off-grid key inside the box (but not the cell of the center, which
    is not explored at all) still yields coverage 100. -/
theorem coverage_counterexample :
    getCoverage (fun _ => 1) {CellKey.mk 0 (7/10000000)} 0 0 25 = 100 ∧
    totalCells (fun _ => 1) 0 25 = 1 ∧
    getCellKey (fun _ => 1) 0 0 ∉ ({CellKey.mk 0 (7/10000000)} : Finset CellKey) :=
  of_decide_eq_true (by with_unfolding_all rfl)

/-- round6 is strictly monotone across a full step of the 6th decimal. -/
lemma round6_lt_round6 {a b : ℚ} (h : a + 1/1000000 ≤ b) : round6 a < round6 b := by
  have h1 := round6_le a
  have h2 := lt_round6 b
  linarith

/-- C6: the codec has no polar guard: cellSizeLng and getCellKey divide by the
    cosine-derived step unconditionally. With a negative cosine value (a
    latitude beyond the pole) the longitude step is negative and getCellKey
    still happily floor-quantizes with that negative step and fabricates a key
    instead of rejecting or clamping. -/
theorem no_polar_guard :
    cellSizeLng (fun _ => -1) 90 < 0 ∧
    getCellKey (fun _ => -1) 90 1
      = ⟨round6 ((200376 : ℚ) * CELL_SIZE_LAT),
         round6 ((-2227 : ℚ) * cellSizeLng (fun _ => -1) 90)⟩ := by
  constructor
  · norm_num [cellSizeLng, CELL_SIZE_METERS, METERS_PER_DEG_LAT]
  · have f1 : (Int.floor ((90 : ℚ) / CELL_SIZE_LAT) : ℤ) = 200376 := by
      rw [Int.floor_eq_iff]
      constructor <;> norm_num [CELL_SIZE_LAT, CELL_SIZE_METERS, METERS_PER_DEG_LAT]
    have f2 : (Int.floor ((1 : ℚ) / cellSizeLng (fun _ => -1) 90) : ℤ) = -2227 := by
      rw [Int.floor_eq_iff]
      constructor <;> norm_num [cellSizeLng, CELL_SIZE_METERS, METERS_PER_DEG_LAT]
    simp only [getCellKey, f1, f2]
    push_cast
    rfl

/-- Function loadExploredCells from fogGrid.js. The external collaborators are
    parameters: getItem is the result of localStorage.getItem (it may throw,
    return null, or return a string), parse is JSON.parse composed with the
    Set constructor (it may throw on corrupt data). A falsy data value (null
    or the empty string) yields a fresh empty set without parsing; every
    thrown error is caught and also yields the empty set. -/
def loadExploredCells (getItem : Except Unit (Option String))
    (parse : String → Except Unit (List CellKey)) : Finset CellKey :=
  match getItem with
  | Except.error _ => ∅
  | Except.ok none => ∅
  | Except.ok (some data) =>
    if data = "" then ∅
    else
      match parse data with
      | Except.error _ => ∅
      | Except.ok arr => arr.toFinset

/-- C7: loadExploredCells is total: storage access failure, a missing key, an
    empty string and a parse failure all yield the empty set, and valid
    persisted data yields exactly the deserialized set. -/
theorem load_explored_total (getItem : Except Unit (Option String))
    (parse : String → Except Unit (List CellKey)) :
    (getItem = Except.error () → loadExploredCells getItem parse = ∅) ∧
    (getItem = Except.ok none → loadExploredCells getItem parse = ∅) ∧
    (getItem = Except.ok (some "") → loadExploredCells getItem parse = ∅) ∧
    (∀ data, getItem = Except.ok (some data) → parse data = Except.error () →
      loadExploredCells getItem parse = ∅) ∧
    (∀ data arr, getItem = Except.ok (some data) → data ≠ "" →
      parse data = Except.ok arr →
      loadExploredCells getItem parse = arr.toFinset) := by
  refine ⟨?_, ?_, ?_, ?_, ?_⟩
  · rintro rfl; rfl
  · rintro rfl; rfl
  · rintro rfl; simp [loadExploredCells]
  · rintro data rfl hp
    simp only [loadExploredCells]
    split
    · rfl
    · rw [hp]
  · rintro data arr rfl hd hp
    simp [loadExploredCells, hd, hp]

/-- C7 witness: the load theorem applied to a storage holding one valid key. -/
theorem load_explored_total_witness :
    loadExploredCells (Except.ok (some "k")) (fun _ => Except.ok [CellKey.mk 0 0])
      = ([CellKey.mk 0 0]).toFinset :=
  (load_explored_total (Except.ok (some "k"))
      (fun _ => Except.ok [CellKey.mk 0 0])).2.2.2.2
    "k" [CellKey.mk 0 0] rfl (by decide) rfl

/-- A constant rational stand-in for Math.cos(lat * PI / 180) at latitude
    42.6977 degrees: cos(42.6977 deg) = 0.7349418..., and 0.734942 matches it
    to six decimal places. It is used only where the code itself evaluates the
    cosine once at that single latitude (both sides of the equal-key conjunct
    quantize with the one step computed at 42.6977), or where the conclusion
    is independent of the cosine value (the latitude-row inequalities). -/
def cosApprox : ℚ → ℚ := fun _ => 734942/1000000

/-- C8: a point 20 meters away does not always share the key: the center
    (42.6977, 23.3219) sits about 8 meters north of the southern edge of its
    cell, so the point 20 meters due south (latitude lower by 20 divided by
    METERS_PER_DEG_LAT degrees) falls in a different cell. -/
theorem scenario_counterexample :
    getCellKey cosApprox (42.6977 : ℚ) (23.3219 : ℚ)
      ≠ getCellKey cosApprox ((42.6977 : ℚ) - 20 / METERS_PER_DEG_LAT) (23.3219 : ℚ) := by
  have hc2 : cellSizeLng cosApprox ((42.6977 : ℚ) - 20 / METERS_PER_DEG_LAT)
      = cellSizeLng cosApprox (42.6977 : ℚ) := rfl
  have f1 : (Int.floor ((42.6977 : ℚ) / CELL_SIZE_LAT) : ℤ) = 95062 := by
    rw [Int.floor_eq_iff]
    constructor <;> norm_num [CELL_SIZE_LAT, CELL_SIZE_METERS, METERS_PER_DEG_LAT]
  have f2 : (Int.floor (((42.6977 : ℚ) - 20 / METERS_PER_DEG_LAT) / CELL_SIZE_LAT) : ℤ)
      = 95061 := by
    rw [Int.floor_eq_iff]
    constructor <;> norm_num [CELL_SIZE_LAT, CELL_SIZE_METERS, METERS_PER_DEG_LAT]
  have hlt : round6 (((95061 : ℤ) : ℚ) * CELL_SIZE_LAT)
      < round6 (((95062 : ℤ) : ℚ) * CELL_SIZE_LAT) := by
    apply round6_lt_round6
    push_cast
    norm_num [CELL_SIZE_LAT, CELL_SIZE_METERS, METERS_PER_DEG_LAT]
  simp only [getCellKey, hc2, f1, f2]
  intro h
  have hlat := congrArg CellKey.lat h
  simp only at hlat
  exact absurd hlat (ne_of_gt hlt)

/-- C8 (amended): a 20 meter displacement can keep or change the key: 20
    meters due east is exactly 2/5 of the longitude step that getCellKey
    computes at the unchanged latitude 42.6977 (the same single step both
    calls use, in the source as in the model), and the longitude quotient
    38161.04 stays in cell 38161, so the key is identical; 20 meters due
    south crosses the southern cell edge (the counterexample); 200 meter
    displacements due north or due east span four cell steps and always
    change the key. -/
theorem scenario_amended :
    getCellKey cosApprox (42.6977 : ℚ) (23.3219 : ℚ)
      = getCellKey cosApprox (42.6977 : ℚ)
          ((23.3219 : ℚ) + 20 / (METERS_PER_DEG_LAT * cosApprox 42.6977)) ∧
    getCellKey cosApprox (42.6977 : ℚ) (23.3219 : ℚ)
      ≠ getCellKey cosApprox ((42.6977 : ℚ) + 200 / METERS_PER_DEG_LAT) (23.3219 : ℚ) ∧
    getCellKey cosApprox (42.6977 : ℚ) (23.3219 : ℚ)
      ≠ getCellKey cosApprox (42.6977 : ℚ)
          ((23.3219 : ℚ) + 200 / (METERS_PER_DEG_LAT * cosApprox 42.6977)) := by
  have f1 : (Int.floor ((42.6977 : ℚ) / CELL_SIZE_LAT) : ℤ) = 95062 := by
    rw [Int.floor_eq_iff]
    constructor <;> norm_num [CELL_SIZE_LAT, CELL_SIZE_METERS, METERS_PER_DEG_LAT]
  have fL1 : (Int.floor ((23.3219 : ℚ) / cellSizeLng cosApprox (42.6977 : ℚ)) : ℤ)
      = 38161 := by
    rw [Int.floor_eq_iff]
    constructor <;>
      norm_num [cellSizeLng, cosApprox, CELL_SIZE_METERS, METERS_PER_DEG_LAT]
  refine ⟨?_, ?_, ?_⟩
  · have fL1b : (Int.floor (((23.3219 : ℚ)
          + 20 / (METERS_PER_DEG_LAT * cosApprox 42.6977))
          / cellSizeLng cosApprox (42.6977 : ℚ)) : ℤ) = 38161 := by
      rw [Int.floor_eq_iff]
      constructor <;>
        norm_num [cellSizeLng, cosApprox, CELL_SIZE_METERS, METERS_PER_DEG_LAT]
    simp only [getCellKey, f1, fL1, fL1b]
  · have f2 : (Int.floor (((42.6977 : ℚ) + 200 / METERS_PER_DEG_LAT) / CELL_SIZE_LAT) : ℤ)
        = 95066 := by
      rw [Int.floor_eq_iff]
      constructor <;> norm_num [CELL_SIZE_LAT, CELL_SIZE_METERS, METERS_PER_DEG_LAT]
    have hlt : round6 (((95062 : ℤ) : ℚ) * CELL_SIZE_LAT)
        < round6 (((95066 : ℤ) : ℚ) * CELL_SIZE_LAT) := by
      apply round6_lt_round6
      push_cast
      norm_num [CELL_SIZE_LAT, CELL_SIZE_METERS, METERS_PER_DEG_LAT]
    simp only [getCellKey, f1, f2]
    intro h
    have hlat := congrArg CellKey.lat h
    simp only at hlat
    exact absurd hlat (ne_of_lt hlt)
  · have fL2 : (Int.floor (((23.3219 : ℚ) + 200 / (METERS_PER_DEG_LAT * cosApprox 42.6977))
          / cellSizeLng cosApprox (42.6977 : ℚ)) : ℤ) = 38165 := by
      rw [Int.floor_eq_iff]
      constructor <;>
        norm_num [cellSizeLng, cosApprox, CELL_SIZE_METERS, METERS_PER_DEG_LAT]
    have hlt : round6 (((38161 : ℤ) : ℚ) * cellSizeLng cosApprox (42.6977 : ℚ))
        < round6 (((38165 : ℤ) : ℚ) * cellSizeLng cosApprox (42.6977 : ℚ)) := by
      apply round6_lt_round6
      push_cast
      norm_num [cellSizeLng, cosApprox, CELL_SIZE_METERS, METERS_PER_DEG_LAT]
    simp only [getCellKey, f1, fL1, fL2]
    intro h
    have hlng := congrArg CellKey.lng h
    simp only at hlng
    exact absurd hlng (ne_of_lt hlt)

/-- The culling pass of the overlay repaint (FogCanvasLayer, method named
    underscore-update): every explored cell is looked up with getCellBounds
    and skipped when its rectangle lies outside the viewport expanded by the
    fixed 0.005 degree margin; the survivors receive the gradient erase draw,
    in iteration order. The viewport is given by its south, north, west and
    east bounds. -/
def drawnCells (cosd : ℚ → ℚ) (explored : List CellKey) (vs vn vw ve : ℚ) :
    List CellKey :=
  explored.filter (fun key =>
    let cell := getCellBounds cosd key
    !(decide (cell.north < vs - 0.005) || decide (cell.south > vn + 0.005)
      || decide (cell.east < vw - 0.005) || decide (cell.west > ve + 0.005)))

/-- Closed-rectangle overlap between a cell rectangle and the expanded
    viewport given by its south, north, west and east edges, as the spec
    words the culling test. -/
def rectIntersects (b : Bounds) (s n w e : ℚ) : Prop :=
  s ≤ b.north ∧ b.south ≤ n ∧ w ≤ b.east ∧ b.west ≤ e

/-- C9: a cell receives a gradient erase draw iff it is explored and its
    bounds intersect the viewport expanded by the 0.005 degree margin: cells
    fully outside are skipped, partially overlapping cells are drawn. -/
theorem culling_correct (cosd : ℚ → ℚ) (explored : List CellKey)
    (vs vn vw ve : ℚ) (k : CellKey) :
    k ∈ drawnCells cosd explored vs vn vw ve ↔
      k ∈ explored ∧ rectIntersects (getCellBounds cosd k)
        (vs - 0.005) (vn + 0.005) (vw - 0.005) (ve + 0.005) := by
  unfold drawnCells rectIntersects
  rw [List.mem_filter]
  simp only [Bool.not_eq_true', Bool.or_eq_false_iff, decide_eq_false_iff_not, not_lt]
  constructor
  · rintro ⟨hm, ⟨⟨⟨h1, h2⟩, h3⟩, h4⟩⟩
    exact ⟨hm, h1, h2, h3, h4⟩
  · rintro ⟨hm, h1, h2, h3, h4⟩
    exact ⟨hm, ⟨⟨⟨h1, h2⟩, h3⟩, h4⟩⟩

end FogGrid
